import Mathlib

/-!
# A verification development for `mem-alloc.c`

The allocator keeps an intrusive singly linked list of block headers inside the
`sbrk` heap.  The embedding below follows the C source function by function.

Target ABI: LP64, little endian (x86-64 Linux, the platform of `sbrk`,
`pthread` and `thread_db.h`):

* `size_t`, pointers and `intptr_t` are 8 bytes, `unsigned` is 4 bytes;
* `union header` is `{ size_t size; unsigned is_free; union header* next; }`
  overlaid with `char[16]`: `size` at offset 0, `is_free` at offset 8,
  `next` at offset 16, `sizeof(header_t) = 24`, `sizeof(header_t*) = 8`;
* arithmetic on `void*` is byte arithmetic (GNU C), arithmetic on `header_t*`
  is scaled by `sizeof(header_t)`.

Memory is a total map from byte addresses to byte values; no memory protection
is modelled, so every address can be read and written.  Pointers are natural
numbers below `2^64`, `NULL` is `0`, `(void*)-1` is `2^64 - 1`.  Pointer
arithmetic wraps modulo `2^64`.

The library and system routines the source calls (`sbrk`, `pthread_mutex_lock`,
`pthread_mutex_unlock`, `memset`, `memcpy`) are modelled after their manual
pages; everything else is the source.

A result `none` of a modelled function means that the call does not return
normally: a loop did not finish within the given fuel, a `NULL` pointer was
dereferenced by a list walk, or the calling thread blocked forever on a mutex
it already holds.
-/

namespace MemAlloc

/-! ## Machine constants -/

/-- Number of values of `size_t` / of a pointer: `2^64`. -/
def WORD : Nat := 2 ^ 64

/-- The value of `sizeof(header_t)`. -/
def SIZEOF_HEADER : Nat := 24

/-- The value of `sizeof(header_t*)`. -/
def SIZEOF_HEADER_PTR : Nat := 8

/-- The null pointer. -/
def NULL : Nat := 0

/-- The value `(void*)-1`, the failure result of `sbrk`. -/
def SBRK_FAILED : Nat := 2 ^ 64 - 1

/-- Conversion of a `size_t` value to `intptr_t` (two's complement). -/
def toIntptr (v : Nat) : Int :=
  if v % WORD < 2 ^ 63 then ((v % WORD : Nat) : Int) else ((v % WORD : Nat) : Int) - (WORD : Int)

/-! ## Byte memory -/

/-- Byte-addressed memory. -/
abbrev Mem := Nat → Nat

/-- Little-endian load of `k` bytes starting at address `a`. -/
def load (m : Mem) : Nat → Nat → Nat
  | _, 0 => 0
  | a, k + 1 => m a % 256 + 256 * load m (a + 1) k

/-- Little-endian store of the low `k` bytes of `v` at address `a`. -/
def store (m : Mem) (a k v : Nat) : Mem :=
  fun x => if a ≤ x ∧ x < a + k then v / 256 ^ (x - a) % 256 else m x

/-- The library routine `memset(dst, 0, n)`. -/
def memset0 (m : Mem) (dst n : Nat) : Mem :=
  fun x => if dst ≤ x ∧ x < dst + n then 0 else m x

/-- The library routine `memcpy(dst, src, n)`, all source bytes read before any write. -/
def memcpy (m : Mem) (dst src n : Nat) : Mem :=
  fun x => if dst ≤ x ∧ x < dst + n then m (src + (x - dst)) else m x

/-! ## Header fields -/

/-- Field read `p->s.size`. -/
def hdr_size (m : Mem) (p : Nat) : Nat := load m p 8

/-- Field read `p->s.is_free`. -/
def hdr_is_free (m : Mem) (p : Nat) : Nat := load m (p + 8) 4

/-- Field read `p->s.next`. -/
def hdr_next (m : Mem) (p : Nat) : Nat := load m (p + 16) 8

/-- Field write `p->s.size = v`. -/
def set_size (m : Mem) (p v : Nat) : Mem := store m p 8 v

/-- Field write `p->s.is_free = v`. -/
def set_is_free (m : Mem) (p v : Nat) : Mem := store m (p + 8) 4 v

/-- Field write `p->s.next = v`. -/
def set_next (m : Mem) (p v : Nat) : Mem := store m (p + 16) 8 v

/-! ## The mutex -/

/-- Kind of a pthread mutex.  The zero-initialised global of the source is `normal`. -/
inductive MutexKind where
  | normal
  | recursive
  deriving DecidableEq, Repr

/-- A pthread mutex as seen by the calling thread: its kind and how many times
the calling thread currently holds it. -/
structure Mutex where
  kind : MutexKind
  holds : Nat
  deriving DecidableEq, Repr

/-- The call `pthread_mutex_lock`: a normal mutex already held by the caller blocks forever. -/
def Mutex.acquire (mu : Mutex) : Option Mutex :=
  match mu.kind with
  | MutexKind.normal => if mu.holds = 0 then some { mu with holds := 1 } else none
  | MutexKind.recursive => some { mu with holds := mu.holds + 1 }

/-- The call `pthread_mutex_unlock`. -/
def Mutex.release (mu : Mutex) : Mutex := { mu with holds := mu.holds - 1 }

/-! ## Program state -/

/-- The globals `head`, `tail`, `global_malloc_lock`, the memory, and the
program break kept by the operating system (`brk`), which the system lets move
within `[brk_min, brk_max]`. -/
structure State where
  mem : Mem
  head : Nat
  tail : Nat
  global_malloc_lock : Mutex
  brk : Nat
  brk_min : Nat
  brk_max : Nat

/-- Lift `pthread_mutex_lock(&global_malloc_lock)` to the state. -/
def pthread_mutex_lock (s : State) : Option State :=
  match s.global_malloc_lock.acquire with
  | some mu => some { s with global_malloc_lock := mu }
  | none => none

/-- Lift `pthread_mutex_unlock(&global_malloc_lock)` to the state. -/
def pthread_mutex_unlock (s : State) : State := { s with global_malloc_lock := s.global_malloc_lock.release }

/-- The system call wrapper `sbrk(increment)`: `sbrk(0)` returns the break;
otherwise the break moves by `increment` and the old break is returned, unless
the new break would leave `[brk_min, brk_max]`, in which case nothing changes
and `(void*)-1` is returned. -/
def sbrk (s : State) (increment : Int) : State × Nat :=
  if increment = 0 then (s, s.brk)
  else if (s.brk : Int) + increment < (s.brk_min : Int) ∨ (s.brk_max : Int) < (s.brk : Int) + increment then
    (s, SBRK_FAILED)
  else ({ s with brk := ((s.brk : Int) + increment).toNat }, s.brk)

/-! ## `get_free_block` -/

/-- The loop of `get_free_block`, started at `curr`. -/
def get_free_block_loop (m : Mem) (size : Nat) : Nat → Nat → Option Nat
  | 0, _ => none
  | fuel + 1, curr =>
    if curr = NULL then some NULL
    else if hdr_is_free m curr ≠ 0 ∧ hdr_size m curr ≥ size then some curr
    else get_free_block_loop m size fuel (hdr_next m curr)

/-- The function `get_free_block(size)`. -/
def get_free_block (fuel : Nat) (s : State) (size : Nat) : Option Nat :=
  get_free_block_loop s.mem size fuel s.head

/-! ## `malloc` -/

/-- The function `malloc(size)`; the result is the new state and the returned pointer. -/
def malloc (fuel : Nat) (s : State) (size : Nat) : Option (State × Nat) :=
  if size = 0 then some (s, NULL)
  else
    match pthread_mutex_lock s with
    | none => none
    | some s1 =>
      match get_free_block fuel s1 size with
      | none => none
      | some header =>
        if header ≠ NULL then
          let s2 := { s1 with mem := set_is_free s1.mem header 0 }
          some (pthread_mutex_unlock s2, (header + SIZEOF_HEADER) % WORD)
        else
          let total_size := (SIZEOF_HEADER + size) % WORD
          let r := sbrk s1 (toIntptr total_size)
          let block := r.2
          if block = SBRK_FAILED then some (pthread_mutex_unlock r.1, NULL)
          else
            let header := block
            let m1 := set_is_free r.1.mem header 0
            let m2 := set_next m1 header NULL
            let m3 := set_size m2 header size
            let head1 := if r.1.head = NULL then header else r.1.head
            let m4 := if r.1.tail ≠ NULL then set_next m3 r.1.tail header else m3
            let s3 := { r.1 with mem := m4, head := head1, tail := header }
            some (pthread_mutex_unlock s3, (header + SIZEOF_HEADER) % WORD)

/-! ## `free` -/

/-- The loop `while (curr->s.next != tail) curr = curr->s.next;` of `free`. -/
def free_scan (m : Mem) (tail : Nat) : Nat → Nat → Option Nat
  | 0, _ => none
  | fuel + 1, curr =>
    if curr = NULL then none
    else if hdr_next m curr ≠ tail then free_scan m tail fuel (hdr_next m curr)
    else some curr

/-- The function `free(block)`.  The header pointer is `block - 1` computed on a
`void*`, one byte below `block`; the shrink amount is
`-sizeof(header_t*) - header->s.size` computed in `size_t` and passed as `intptr_t`. -/
def free (fuel : Nat) (s : State) (block : Nat) : Option State :=
  if block = NULL then some s
  else
    match pthread_mutex_lock s with
    | none => none
    | some s1 =>
      let r := sbrk s1 0
      let s2 := r.1
      let heap_break := r.2
      let header := block - 1
      if (block + hdr_size s2.mem header) % WORD = heap_break then
        let unlinked : Option State :=
          if s2.head = s2.tail then some { s2 with head := NULL, tail := NULL }
          else
            match free_scan s2.mem s2.tail fuel s2.head with
            | none => none
            | some curr => some { s2 with mem := set_next s2.mem curr NULL, tail := curr }
        match unlinked with
        | none => none
        | some s3 =>
          let dec := (WORD - SIZEOF_HEADER_PTR + (WORD - hdr_size s3.mem header)) % WORD
          some (pthread_mutex_unlock (sbrk s3 (toIntptr dec)).1)
      else
        some (pthread_mutex_unlock { s2 with mem := set_is_free s2.mem header 1 })

/-! ## `calloc` and `realloc` -/

/-- The function `calloc(num, nsize)`. -/
def calloc (fuel : Nat) (s : State) (num nsize : Nat) : Option (State × Nat) :=
  if num = 0 ∨ nsize = 0 then some (s, NULL)
  else
    match pthread_mutex_lock s with
    | none => none
    | some s1 =>
      let size := num * nsize % WORD
      if nsize ≠ size / num then some (s1, NULL)
      else
        match malloc fuel s1 size with
        | none => none
        | some (s2, block) =>
          if block = NULL then some (s2, NULL)
          else
            some (pthread_mutex_unlock { s2 with mem := memset0 s2.mem block size }, block)

/-- The function `realloc(block, size)`.  As in `free`, the header pointer is
`block - 1` computed on a `void*`. -/
def realloc (fuel : Nat) (s : State) (block size : Nat) : Option (State × Nat) :=
  if block = NULL ∨ size = 0 then some (s, NULL)
  else
    match pthread_mutex_lock s with
    | none => none
    | some s1 =>
      let header := block - 1
      if hdr_size s1.mem header ≥ size then some (pthread_mutex_unlock s1, block)
      else
        match malloc fuel s1 size with
        | none => none
        | some (s2, ret) =>
          if ret ≠ NULL then
            let s3 := { s2 with mem := memcpy s2.mem ret block (hdr_size s2.mem header) }
            match free fuel s3 block with
            | none => none
            | some s4 => some (s4, ret)
          else some (s2, ret)

/-! ## Initial state -/

/-- The state at program start: no blocks, the global mutex zero-initialised
(normal, not held), heap memory zero-filled, break at `base`, and the system
willing to grow the break up to `limit`. -/
def initial (base limit : Nat) : State :=
  { mem := fun _ => 0, head := NULL, tail := NULL,
    global_malloc_lock := { kind := MutexKind.normal, holds := 0 },
    brk := base, brk_min := base, brk_max := limit }

/-! ## List shape and the heap invariants of the data model -/

/-- The test `curr->s.is_free && curr->s.size >= size` of `get_free_block` on the block at `p`. -/
def fits (m : Mem) (size p : Nat) : Bool :=
  decide (hdr_is_free m p ≠ 0 ∧ hdr_size m p ≥ size)

/-- Following `next` from `cur` visits exactly the non-null headers `ps`, in
this order, and then reaches `NULL`: the list is finite, hence acyclic. -/
def IsList (m : Mem) : Nat → List Nat → Prop
  | cur, [] => cur = NULL
  | cur, p :: rest => cur = p ∧ p ≠ NULL ∧ IsList m (hdr_next m p) rest

instance IsList.decide (m : Mem) : (ps : List Nat) → (cur : Nat) → Decidable (IsList m cur ps)
  | [], cur => inferInstanceAs (Decidable (cur = NULL))
  | p :: rest, cur =>
    have := IsList.decide m rest (hdr_next m p)
    inferInstanceAs (Decidable (cur = p ∧ p ≠ NULL ∧ IsList m (hdr_next m p) rest))

/-- The invariants of the data model for a state whose block list is `ps`:
`head` chains through `ps` to `NULL`, `tail` is the last block (or `NULL`),
every block (header and payload) ends before the next one starts and before
the break, and the break is a valid address inside the range the system allows. -/
structure HeapInv (s : State) (ps : List Nat) : Prop where
  chain : IsList s.mem s.head ps
  last : s.tail = ps.getLastD NULL
  apart : ps.Pairwise (fun p q => p + SIZEOF_HEADER + hdr_size s.mem p ≤ q)
  below : ∀ p ∈ ps, p + SIZEOF_HEADER + hdr_size s.mem p ≤ s.brk
  brk_pos : 0 < s.brk
  brk_ge : s.brk_min ≤ s.brk
  brk_le : s.brk ≤ s.brk_max
  max_lt : s.brk_max < SBRK_FAILED

/-! ## Sample states -/

/-- A state with two blocks: a free block of 8 bytes at 4096 followed by an
in-use block of 16 bytes at 4128; the break is the end of the second block. -/
def two_blocks : State :=
  { mem := set_next (set_is_free (set_size (set_size (fun _ => 0) 4096 8) 4128 16) 4096 1) 4096 4128,
    head := 4096, tail := 4128,
    global_malloc_lock := { kind := MutexKind.normal, holds := 0 },
    brk := 4168, brk_min := 4096, brk_max := 2 ^ 20 }

/-- A write of one byte by the program into memory it owns. -/
def user_store (s : State) (addr v : Nat) : State := { s with mem := store s.mem addr 1 v }

/-- The initial state with the break at 4096 and room to grow up to `2^20`. -/
def start : State := initial 4096 (2 ^ 20)

/-- The same initial state, but with a recursive mutex in place of the normal one. -/
def recursive_start : State :=
  { start with global_malloc_lock := { kind := MutexKind.recursive, holds := 0 } }

/-- An initial state in which the system lets the break grow only up to 4250:
room for one block of 100 bytes, but not for a second one of 150 bytes. -/
def tight_start : State := initial 4096 4250

/-! ## Memory lemmas -/

theorem load_congr (m m' : Mem) (k : Nat) : ∀ a : Nat,
    (∀ x, a ≤ x → x < a + k → m x = m' x) → load m a k = load m' a k := by
  induction k with
  | zero => intro a _; rfl
  | succ k ih =>
    intro a h
    have h0 : m a = m' a := h a (Nat.le_refl a) (by omega)
    have h1 : load m (a + 1) k = load m' (a + 1) k :=
      ih (a + 1) (fun x hx1 hx2 => h x (by omega) (by omega))
    simp only [load, h0, h1]

theorem load_lt (m : Mem) (k : Nat) : ∀ a : Nat, load m a k < 256 ^ k := by
  induction k with
  | zero => intro a; simp [load]
  | succ k ih =>
    intro a
    have h1 := ih (a + 1)
    have h2 : m a % 256 < 256 := Nat.mod_lt _ (by decide)
    simp only [load, pow_succ]
    omega

theorem store_outside (m : Mem) (a k v x : Nat) (h : x < a ∨ a + k ≤ x) :
    store m a k v x = m x := by
  unfold store
  rw [if_neg]
  omega

theorem load_store_same (m : Mem) (k : Nat) : ∀ a v : Nat,
    load (store m a k v) a k = v % 256 ^ k := by
  induction k with
  | zero => intro a v; simp [load, Nat.mod_one]
  | succ k ih =>
    intro a v
    have h0 : store m a (k + 1) v a = v % 256 := by
      unfold store
      rw [if_pos (by omega)]
      simp
    have h1 : load (store m a (k + 1) v) (a + 1) k = load (store m (a + 1) k (v / 256)) (a + 1) k := by
      apply load_congr
      intro x hx1 hx2
      unfold store
      rw [if_pos (by omega), if_pos (by omega)]
      have hx : x - a = (x - (a + 1)) + 1 := by omega
      rw [hx, pow_succ, Nat.mul_comm, Nat.div_div_eq_div_mul]
    simp only [load]
    rw [h0, h1, ih, Nat.mod_mod, pow_succ', Nat.mod_mul]

theorem load_store_disjoint (m : Mem) (a k v b j : Nat) (h : b + j ≤ a ∨ a + k ≤ b) :
    load (store m a k v) b j = load m b j := by
  apply load_congr
  intro x hx1 hx2
  apply store_outside
  omega


/-! ## The free-block search -/

theorem get_free_block_loop_spec (m : Mem) (n : Nat) : ∀ (ps : List Nat) (cur fuel : Nat),
    IsList m cur ps → ps.length < fuel →
    ((∀ p ∈ ps, fits m n p = false) ∧ get_free_block_loop m n fuel cur = some NULL) ∨
    (∃ pre r post, ps = pre ++ r :: post ∧ (∀ q ∈ pre, fits m n q = false) ∧
      fits m n r = true ∧ r ≠ NULL ∧ get_free_block_loop m n fuel cur = some r) := by
  intro ps
  induction ps with
  | nil =>
    intro cur fuel hl hf
    left
    cases fuel with
    | zero => simp at hf
    | succ fuel =>
      have hc : cur = NULL := hl
      simp [get_free_block_loop, hc]
  | cons p rest ih =>
    intro cur fuel hl hf
    obtain ⟨hc, hp, hrest⟩ := hl
    cases fuel with
    | zero => simp at hf
    | succ fuel =>
      have hf' : rest.length < fuel := by simp at hf; omega
      subst hc
      by_cases hfit : fits m n cur = true
      · right
        refine ⟨[], cur, rest, rfl, by simp, hfit, hp, ?_⟩
        have h := hfit
        simp only [fits, decide_eq_true_eq] at h
        simp [get_free_block_loop, hp, h]
      · have hfit' : fits m n cur = false := by simpa using hfit
        have h := hfit'
        simp only [fits, decide_eq_false_iff_not] at h
        have hstep : get_free_block_loop m n (fuel + 1) cur
            = get_free_block_loop m n fuel (hdr_next m cur) := by
          simp only [get_free_block_loop, if_neg hp, if_neg h]
        rcases ih (hdr_next m cur) fuel hrest hf' with ⟨hall, hres⟩ | ⟨pre, r, post, hps, hpre, hr, hr0, hres⟩
        · left
          refine ⟨?_, by rw [hstep, hres]⟩
          intro q hq
          rcases List.mem_cons.mp hq with rfl | hq
          · exact hfit'
          · exact hall q hq
        · right
          refine ⟨cur :: pre, r, post, by simp [hps], ?_, hr, hr0, by rw [hstep, hres]⟩
          intro q hq
          rcases List.mem_cons.mp hq with rfl | hq
          · exact hfit'
          · exact hpre q hq


/-! ## Locks, lists and the growth step -/

theorem acquire_of_free (mu : Mutex) (h : mu.holds = 0) :
    mu.acquire = some { mu with holds := 1 } := by
  cases mu with
  | mk kind holds =>
    simp only at h
    subst h
    cases kind <;> simp [Mutex.acquire]

theorem release_after_acquire (mu : Mutex) (h : mu.holds = 0) :
    Mutex.release { mu with holds := 1 } = mu := by
  cases mu with
  | mk kind holds =>
    simp only at h
    subst h
    simp [Mutex.release]

theorem pthread_mutex_lock_of_free (s : State) (h : s.global_malloc_lock.holds = 0) :
    pthread_mutex_lock s = some { s with global_malloc_lock := { s.global_malloc_lock with holds := 1 } } := by
  simp [pthread_mutex_lock, acquire_of_free s.global_malloc_lock h]

/-- Any two distinct blocks of a state satisfying the invariants have disjoint headers. -/
theorem HeapInv.headers_apart {s : State} {ps : List Nat} (hinv : HeapInv s ps) :
    ∀ p ∈ ps, ∀ q ∈ ps, p ≠ q → p + SIZEOF_HEADER ≤ q ∨ q + SIZEOF_HEADER ≤ p := by
  have h1 : ps.Pairwise (fun p q => p + SIZEOF_HEADER ≤ q ∨ q + SIZEOF_HEADER ≤ p) :=
    hinv.apart.imp (fun {a b} h => Or.inl (by omega))
  exact h1.forall (fun a b h => h.symm)

/-- Memories that agree on the `next` fields of the blocks give the same list. -/
theorem IsList.of_next_eq (m m' : Mem) : ∀ (ps : List Nat) (cur : Nat),
    IsList m cur ps → (∀ p ∈ ps, hdr_next m' p = hdr_next m p) → IsList m' cur ps := by
  intro ps
  induction ps with
  | nil => intro cur h _; exact h
  | cons p rest ih =>
    intro cur h hn
    obtain ⟨hc, hp, hrest⟩ := h
    refine ⟨hc, hp, ?_⟩
    rw [hn p (List.mem_cons_self p rest)]
    exact ih _ hrest (fun q hq => hn q (List.mem_cons_of_mem p hq))

theorem IsList.ne_null (m : Mem) : ∀ (ps : List Nat) (cur : Nat),
    IsList m cur ps → ∀ p ∈ ps, p ≠ NULL := by
  intro ps
  induction ps with
  | nil => intro cur _ p hp; simp at hp
  | cons q rest ih =>
    intro cur h p hp
    obtain ⟨_, hq, hrest⟩ := h
    rcases List.mem_cons.mp hp with rfl | hp
    · exact hq
    · exact ih _ hrest p hp


/-- The three field writes that initialise a fresh header at `b`. -/
theorem fresh_header_fields (m : Mem) (b n : Nat) (hn : n < WORD) :
    hdr_size (set_size (set_next (set_is_free m b 0) b NULL) b n) b = n ∧
    hdr_is_free (set_size (set_next (set_is_free m b 0) b NULL) b n) b = 0 ∧
    hdr_next (set_size (set_next (set_is_free m b 0) b NULL) b n) b = NULL ∧
    ∀ x, x < b ∨ b + SIZEOF_HEADER ≤ x →
      set_size (set_next (set_is_free m b 0) b NULL) b n x = m x := by
  refine ⟨?_, ?_, ?_, ?_⟩
  · unfold hdr_size set_size
    rw [load_store_same]
    exact Nat.mod_eq_of_lt (by simpa [WORD] using hn)
  · unfold hdr_is_free set_size set_next
    rw [load_store_disjoint _ _ _ _ _ _ (by omega), load_store_disjoint _ _ _ _ _ _ (by omega)]
    unfold set_is_free
    rw [load_store_same]
    rfl
  · unfold hdr_next set_size
    rw [load_store_disjoint _ _ _ _ _ _ (by omega)]
    unfold set_next
    rw [load_store_same]
    rfl
  · intro x hx
    simp only [SIZEOF_HEADER] at hx
    unfold set_size set_next set_is_free
    rw [store_outside _ _ _ _ _ (by omega), store_outside _ _ _ _ _ (by omega),
      store_outside _ _ _ _ _ (by omega)]

/-- Successful growth by a positive amount: the break moves up by exactly that amount. -/
theorem sbrk_grow (s : State) (k : Nat) (hk : 0 < k)
    (h : (sbrk s (k : Int)).2 ≠ SBRK_FAILED) :
    sbrk s (k : Int) = ({ s with brk := s.brk + k }, s.brk) ∧ s.brk + k ≤ s.brk_max := by
  have hk0 : (k : Int) ≠ 0 := by omega
  unfold sbrk at h ⊢
  rw [if_neg hk0] at h ⊢
  split_ifs at h ⊢ with h1
  · exact absurd rfl h
  · have h2 : ((s.brk : Int) + (k : Int)).toNat = s.brk + k := by omega
    rw [h2]
    exact ⟨rfl, by omega⟩

theorem toIntptr_small (v : Nat) (h : v < 2 ^ 63) : toIntptr (v % WORD) = (v : Int) := by
  have h1 : v % WORD = v := Nat.mod_eq_of_lt (by simp only [WORD]; omega)
  unfold toIntptr
  rw [h1, h1, if_pos h]

/-- Appending a block `b` behind the last block `t` of a list. -/
theorem IsList.snoc (m m' : Mem) (t b : Nat) (hb : b ≠ NULL) (hbn : hdr_next m' b = NULL)
    (htn : hdr_next m' t = b) : ∀ (init : List Nat) (cur : Nat),
    IsList m cur (init ++ [t]) → (∀ p ∈ init, hdr_next m' p = hdr_next m p) →
    IsList m' cur (init ++ [t] ++ [b]) := by
  intro init
  induction init with
  | nil =>
    intro cur h _
    obtain ⟨hc, ht, _⟩ := h
    exact ⟨hc, ht, by rw [htn]; exact ⟨rfl, hb, hbn⟩⟩
  | cons p rest ih =>
    intro cur h hn
    obtain ⟨hc, hp, hrest⟩ := h
    refine ⟨hc, hp, ?_⟩
    rw [hn p (List.mem_cons_self p rest)]
    exact ih _ hrest (fun q hq => hn q (List.mem_cons_of_mem p hq))


theorem list_nil_or_snoc (ps : List Nat) : ps = [] ∨ ∃ init t, ps = init ++ [t] := by
  rcases List.eq_nil_or_concat ps with h | ⟨init, t, h⟩
  · exact Or.inl h
  · exact Or.inr ⟨init, t, by rw [h, List.concat_eq_append]⟩

/-- The result of `sbrk` does not depend on the mutex. -/
theorem sbrk_with_lock (s : State) (mu : Mutex) (inc : Int) :
    sbrk { s with global_malloc_lock := mu } inc = ({ (sbrk s inc).1 with global_malloc_lock := mu }, (sbrk s inc).2) := by
  unfold sbrk
  simp only
  split_ifs <;> rfl


/-! ## The claims -/

/-- The growth path of `malloc` where the size computation does not wrap: in a
state satisfying the heap invariants, with the lock not held, for `0 < n` with
`sizeof(header_t) + n < 2^63`, when `get_free_block` finds no block and `sbrk`
succeeds, `malloc(n)` moves the break up by exactly
`sizeof(header_t) + n`, writes a header at the old break with `size = n`,
`is_free = 0`, `next = NULL`, links it behind the old tail, makes it the tail
(and the head when the list was empty), leaves size and `is_free` of every old
block and all memory below the old break except the old tail's `next` field
unchanged, and returns the old break plus `sizeof(header_t)`. -/
theorem malloc_grows_heap (fuel : Nat) (s : State) (ps : List Nat) (n : Nat)
    (hinv : HeapInv s ps) (hlock : s.global_malloc_lock.holds = 0) (hn : 0 < n)
    (hsmall : SIZEOF_HEADER + n < 2 ^ 63)
    (hnone : get_free_block fuel s n = some NULL)
    (hos : (sbrk s (toIntptr ((SIZEOF_HEADER + n) % WORD))).2 ≠ SBRK_FAILED) :
    ∃ s', malloc fuel s n = some (s', s.brk + SIZEOF_HEADER) ∧
      s'.brk = s.brk + (SIZEOF_HEADER + n) ∧
      hdr_size s'.mem s.brk = n ∧ hdr_is_free s'.mem s.brk = 0 ∧
      hdr_next s'.mem s.brk = NULL ∧
      s'.tail = s.brk ∧ (s.tail ≠ NULL → hdr_next s'.mem s.tail = s.brk) ∧
      s'.head = (if ps = [] then s.brk else s.head) ∧
      HeapInv s' (ps ++ [s.brk]) ∧
      (∀ p ∈ ps, hdr_size s'.mem p = hdr_size s.mem p ∧
        hdr_is_free s'.mem p = hdr_is_free s.mem p) ∧
      (∀ x, x < s.brk → (s.tail = NULL ∨ x < s.tail + 16 ∨ s.tail + SIZEOF_HEADER ≤ x) →
        s'.mem x = s.mem x) ∧
      s'.global_malloc_lock = s.global_malloc_lock ∧ s'.brk_min = s.brk_min ∧ s'.brk_max = s.brk_max := by
  have hn0 : n ≠ 0 := by omega
  have hnW : n < WORD := by simp only [WORD, SIZEOF_HEADER] at *; omega
  have hpos : 0 < SIZEOF_HEADER + n := by omega
  rw [toIntptr_small _ hsmall] at hos
  obtain ⟨hsb, hmaxle⟩ := sbrk_grow s (SIZEOF_HEADER + n) hpos hos
  have hmax := hinv.max_lt
  have hbpos := hinv.brk_pos
  have hb0 : s.brk ≠ NULL := by simp only [NULL]; omega
  have hbF : s.brk ≠ SBRK_FAILED := by omega
  have hmod : (s.brk + SIZEOF_HEADER) % WORD = s.brk + SIZEOF_HEADER := by
    apply Nat.mod_eq_of_lt
    simp only [SIZEOF_HEADER, SBRK_FAILED, WORD] at *
    omega
  have hbW : s.brk < 256 ^ 8 := by
    simp only [SBRK_FAILED] at hmax
    have : (256 : Nat) ^ 8 = 2 ^ 64 := by norm_num
    omega
  obtain ⟨hF1, hF2, hF3, hF4⟩ := fresh_header_fields s.mem s.brk n hnW
  -- the state after the call
  have hsb1 : sbrk { s with global_malloc_lock := { s.global_malloc_lock with holds := 1 } }
      (toIntptr ((SIZEOF_HEADER + n) % WORD))
      = ({ s with global_malloc_lock := { s.global_malloc_lock with holds := 1 }, brk := s.brk + (SIZEOF_HEADER + n) }, s.brk) := by
    rw [toIntptr_small _ hsmall]
    rw [sbrk_with_lock, hsb]
  have hg : get_free_block fuel { s with global_malloc_lock := { s.global_malloc_lock with holds := 1 } } n = some NULL := hnone
  have hmalloc : malloc fuel s n = some
      ({ s with
          mem := if s.tail ≠ NULL then
              set_next (set_size (set_next (set_is_free s.mem s.brk 0) s.brk NULL) s.brk n) s.tail s.brk
            else set_size (set_next (set_is_free s.mem s.brk 0) s.brk NULL) s.brk n,
          head := if s.head = NULL then s.brk else s.head,
          tail := s.brk,
          brk := s.brk + (SIZEOF_HEADER + n) }, s.brk + SIZEOF_HEADER) := by
    unfold malloc
    rw [if_neg hn0, pthread_mutex_lock_of_free s hlock]
    simp only [hg, hsb1, if_neg hbF, hmod]
    simp [pthread_mutex_unlock, release_after_acquire s.global_malloc_lock hlock]
  refine ⟨_, hmalloc, rfl, ?_⟩
  dsimp only
  -- where the old tail lies
  have htail : s.tail = NULL ∨ (s.tail ∈ ps ∧ s.tail + SIZEOF_HEADER ≤ s.brk) := by
    rw [hinv.last]
    rcases list_nil_or_snoc ps with hnil | ⟨init, t, hps⟩
    · left; rw [hnil]; rfl
    · right
      have ht : t ∈ ps := by rw [hps]; simp
      have := hinv.below t ht
      rw [hps]
      simp only [List.getLastD_concat]
      exact ⟨by simp, by omega⟩
  -- the final memory agrees with the old one away from the two written areas
  have hframe : ∀ x, x < s.brk → (s.tail = NULL ∨ x < s.tail + 16 ∨ s.tail + SIZEOF_HEADER ≤ x) →
      (if s.tail ≠ NULL then
        set_next (set_size (set_next (set_is_free s.mem s.brk 0) s.brk NULL) s.brk n) s.tail s.brk
      else set_size (set_next (set_is_free s.mem s.brk 0) s.brk NULL) s.brk n) x = s.mem x := by
    intro x hx hx2
    by_cases ht : s.tail = NULL
    · rw [if_neg (by simpa using ht)]
      exact hF4 x (Or.inl hx)
    · rw [if_pos ht]
      have hx3 : x < s.tail + 16 ∨ s.tail + 16 + 8 ≤ x := by
        rcases hx2 with h | h | h
        · exact absurd h ht
        · exact Or.inl h
        · right; simp only [SIZEOF_HEADER] at h; omega
      unfold set_next
      rw [store_outside _ _ _ _ _ hx3]
      exact hF4 x (Or.inl hx)
  -- and with the freshly initialised header on the new header
  have hnew : ∀ x, s.brk ≤ x →
      (if s.tail ≠ NULL then
        set_next (set_size (set_next (set_is_free s.mem s.brk 0) s.brk NULL) s.brk n) s.tail s.brk
      else set_size (set_next (set_is_free s.mem s.brk 0) s.brk NULL) s.brk n) x
      = set_size (set_next (set_is_free s.mem s.brk 0) s.brk NULL) s.brk n x := by
    intro x hx
    by_cases ht : s.tail = NULL
    · rw [if_neg (by simpa using ht)]
    · rw [if_pos ht]
      rcases htail with h | ⟨_, h⟩
      · exact absurd h ht
      · unfold set_next
        simp only [SIZEOF_HEADER] at h
        rw [store_outside _ _ _ _ _ (by omega)]
  generalize hm4 : (if s.tail ≠ NULL then
        set_next (set_size (set_next (set_is_free s.mem s.brk 0) s.brk NULL) s.brk n) s.tail s.brk
      else set_size (set_next (set_is_free s.mem s.brk 0) s.brk NULL) s.brk n) = m4 at hframe hnew ⊢
  have hsz : hdr_size m4 s.brk = n := by
    rw [← hF1]; unfold hdr_size
    exact load_congr _ _ _ _ (fun x h1 _ => hnew x h1)
  have hfr : hdr_is_free m4 s.brk = 0 := by
    rw [← hF2]; unfold hdr_is_free
    exact load_congr _ _ _ _ (fun x h1 _ => hnew x (by omega))
  have hnx : hdr_next m4 s.brk = NULL := by
    rw [← hF3]; unfold hdr_next
    exact load_congr _ _ _ _ (fun x h1 _ => hnew x (by omega))
  have hapart := hinv.headers_apart
  -- old headers: size and is_free are untouched
  have hold : ∀ p ∈ ps, hdr_size m4 p = hdr_size s.mem p ∧
      hdr_is_free m4 p = hdr_is_free s.mem p := by
    intro p hp
    have hpb := hinv.below p hp
    have hd : s.tail = NULL ∨ p = s.tail ∨ p + SIZEOF_HEADER ≤ s.tail ∨ s.tail + SIZEOF_HEADER ≤ p := by
      rcases htail with h | ⟨h, _⟩
      · exact Or.inl h
      · by_cases hpt : p = s.tail
        · exact Or.inr (Or.inl hpt)
        · exact Or.inr (Or.inr (hapart p hp s.tail h hpt))
    simp only [SIZEOF_HEADER] at hd hpb
    constructor
    · unfold hdr_size
      apply load_congr
      intro x h1 h2
      apply hframe x (by omega)
      simp only [SIZEOF_HEADER]
      omega
    · unfold hdr_is_free
      apply load_congr
      intro x h1 h2
      apply hframe x (by omega)
      simp only [SIZEOF_HEADER]
      omega
  have htn : s.tail ≠ NULL → hdr_next m4 s.tail = s.brk := by
    intro ht
    rw [← hm4, if_pos ht]
    unfold hdr_next set_next
    rw [load_store_same]
    exact Nat.mod_eq_of_lt hbW
  refine ⟨hsz, hfr, hnx, rfl, htn, ?_, ?_, hold, hframe, rfl, rfl, rfl⟩
  · -- head
    rcases list_nil_or_snoc ps with hnil | ⟨init, t, hps⟩
    · have hh : s.head = NULL := by have := hinv.chain; rw [hnil] at this; exact this
      rw [if_pos hh, if_pos hnil]
    · have hne : ps ≠ [] := by rw [hps]; simp
      have hh : s.head ≠ NULL := by
        have hc := hinv.chain
        cases ps with
        | nil => exact absurd rfl hne
        | cons q rest => obtain ⟨h1, h2, _⟩ := hc; rw [h1]; exact h2
      rw [if_neg hh, if_neg hne]
  · -- the invariants of the new state
    have hsizes : ∀ p ∈ ps, p + SIZEOF_HEADER + hdr_size m4 p ≤ s.brk := by
      intro p hp
      rw [(hold p hp).1]
      exact hinv.below p hp
    refine ⟨?_, ?_, ?_, ?_, ?_, ?_, ?_, ?_⟩
    · -- chain
      show IsList m4 (if s.head = NULL then s.brk else s.head) (ps ++ [s.brk])
      rcases list_nil_or_snoc ps with hnil | ⟨init, t, hps⟩
      · have hh : s.head = NULL := by have := hinv.chain; rw [hnil] at this; exact this
        rw [if_pos hh, hnil]
        exact ⟨rfl, hb0, hnx⟩
      · have hc := hinv.chain
        have hlast : s.tail = t := by rw [hinv.last, hps]; simp
        have ht0 : t ≠ NULL := IsList.ne_null _ _ _ hc t (by rw [hps]; simp)
        have hh : s.head ≠ NULL := by
          cases ps with
          | nil => simp at hps
          | cons q rest => obtain ⟨h1, h2, _⟩ := hc; rw [h1]; exact h2
        rw [if_neg hh, hps]
        rw [hps] at hc
        apply IsList.snoc s.mem m4 t s.brk hb0 hnx (by rw [← hlast]; exact htn (by rw [hlast]; exact ht0)) init s.head hc
        intro p hp
        have hpps : p ∈ ps := by rw [hps]; simp [hp]
        have hpt : p + SIZEOF_HEADER + hdr_size s.mem p ≤ t := by
          have hap := hinv.apart
          rw [hps, List.pairwise_append] at hap
          exact hap.2.2 p hp t (by simp)
        have hpb := hinv.below p hpps
        simp only [SIZEOF_HEADER] at hpt hpb
        unfold hdr_next
        apply load_congr
        intro x h1 h2
        apply hframe x (by omega)
        rw [hlast]
        right; left; omega
    · -- tail
      show s.brk = (ps ++ [s.brk]).getLastD NULL
      simp
    · -- blocks apart
      show (ps ++ [s.brk]).Pairwise (fun p q => p + SIZEOF_HEADER + hdr_size m4 p ≤ q)
      rw [List.pairwise_append]
      refine ⟨?_, List.pairwise_singleton _ _, ?_⟩
      · exact hinv.apart.imp_of_mem (fun {a b} ha _ h => by rw [(hold a ha).1]; exact h)
      · intro p hp q hq
        rw [List.mem_singleton.mp hq]
        exact hsizes p hp
    · -- blocks below the break
      intro p hp
      show p + SIZEOF_HEADER + hdr_size m4 p ≤ s.brk + (SIZEOF_HEADER + n)
      rcases List.mem_append.mp hp with h | h
      · have := hsizes p h; omega
      · rw [List.mem_singleton.mp h, hsz]; omega
    · show 0 < s.brk + (SIZEOF_HEADER + n)
      omega
    · show s.brk_min ≤ s.brk + (SIZEOF_HEADER + n)
      have := hinv.brk_ge; omega
    · exact hmaxle
    · exact hmax


/-- Claim C2: in a state satisfying the heap invariants, with the lock not held,
for `n > 0` such that some block of the list is free with stored size at least
`n`, `malloc(n)` returns the payload address `p + sizeof(header_t)` of the first
such block `p` in list order; the only change of the state is the 4-byte write
of `0` to `p->s.is_free`: every stored size, every `next` link, the `is_free`
flag of every other block, `head`, `tail`, the break and the lock are as before. -/
theorem malloc_reuses_first_fit (fuel : Nat) (s : State) (ps : List Nat) (n : Nat)
    (hinv : HeapInv s ps) (hlock : s.global_malloc_lock.holds = 0) (hn : 0 < n)
    (hfuel : ps.length < fuel) (hex : ∃ p ∈ ps, fits s.mem n p = true) :
    ∃ pre p post, ps = pre ++ p :: post ∧ (∀ q ∈ pre, fits s.mem n q = false) ∧
      fits s.mem n p = true ∧
      malloc fuel s n = some ({ s with mem := set_is_free s.mem p 0 }, p + SIZEOF_HEADER) ∧
      hdr_is_free (set_is_free s.mem p 0) p = 0 ∧
      (∀ q ∈ ps, hdr_size (set_is_free s.mem p 0) q = hdr_size s.mem q ∧
        hdr_next (set_is_free s.mem p 0) q = hdr_next s.mem q ∧
        (q ≠ p → hdr_is_free (set_is_free s.mem p 0) q = hdr_is_free s.mem q)) ∧
      (∀ x, x < p + 8 ∨ p + 12 ≤ x → set_is_free s.mem p 0 x = s.mem x) := by
  have hn0 : n ≠ 0 := by omega
  rcases get_free_block_loop_spec s.mem n ps s.head fuel hinv.chain hfuel with
    ⟨hall, _⟩ | ⟨pre, p, post, hps, hpre, hp, hp0, hres⟩
  · obtain ⟨p, hp, hfit⟩ := hex
    rw [hall p hp] at hfit
    exact absurd hfit (by decide)
  · have hmem : p ∈ ps := by rw [hps]; simp
    have hbelow := hinv.below p hmem
    have hle := hinv.brk_le
    have hmax := hinv.max_lt
    have hapart := hinv.headers_apart
    refine ⟨pre, p, post, hps, hpre, hp, ?_, ?_, ?_, ?_⟩
    · have hg : get_free_block fuel { s with global_malloc_lock := { s.global_malloc_lock with holds := 1 } } n = some p := hres
      have hmod : (p + SIZEOF_HEADER) % WORD = p + SIZEOF_HEADER := by
        apply Nat.mod_eq_of_lt
        simp only [SIZEOF_HEADER, SBRK_FAILED, WORD] at *
        omega
      unfold malloc
      rw [if_neg hn0, pthread_mutex_lock_of_free s hlock]
      simp only [hg, if_pos hp0, hmod]
      simp [pthread_mutex_unlock, release_after_acquire s.global_malloc_lock hlock]
    · simp [hdr_is_free, set_is_free, load_store_same]
    · intro q hq
      have hd : q = p ∨ q + SIZEOF_HEADER ≤ p ∨ p + SIZEOF_HEADER ≤ q := by
        by_cases hqp : q = p
        · exact Or.inl hqp
        · exact Or.inr (hapart q hq p hmem hqp)
      simp only [SIZEOF_HEADER] at hd
      refine ⟨?_, ?_, ?_⟩
      · unfold hdr_size set_is_free
        apply load_store_disjoint
        omega
      · unfold hdr_next set_is_free
        apply load_store_disjoint
        omega
      · intro hqp
        unfold hdr_is_free set_is_free
        apply load_store_disjoint
        omega
    · intro x hx
      unfold set_is_free
      apply store_outside
      omega


/-- Claim C3: on a list that chains from `head` through the blocks `ps` to `NULL`,
`get_free_block(n)` returns (given fuel for `|ps| + 1` iterations) the first block
of `ps` that is free with stored size at least `n`, and returns `NULL` exactly
when no block of `ps` is such.  The function only reads the state. -/
theorem get_free_block_first_fit (fuel : Nat) (s : State) (ps : List Nat) (n : Nat)
    (hl : IsList s.mem s.head ps) (hfuel : ps.length < fuel) :
    ∃ r, get_free_block fuel s n = some r ∧
      (r = NULL ↔ ∀ p ∈ ps, fits s.mem n p = false) ∧
      (r ≠ NULL → ∃ pre post, ps = pre ++ r :: post ∧
        (∀ q ∈ pre, fits s.mem n q = false) ∧ fits s.mem n r = true) := by
  unfold get_free_block
  rcases get_free_block_loop_spec s.mem n ps s.head fuel hl hfuel with
    ⟨hall, hres⟩ | ⟨pre, r, post, hps, hpre, hr, hr0, hres⟩
  · exact ⟨NULL, hres, ⟨fun _ => hall, fun _ => rfl⟩, fun h => absurd rfl h⟩
  · refine ⟨r, hres, ⟨fun h => absurd h hr0, fun h => ?_⟩, fun _ => ⟨pre, post, hps, hpre, hr⟩⟩
    have hmem : r ∈ ps := by rw [hps]; simp
    have := h r hmem
    rw [hr] at this
    exact absurd this (by decide)

/-- Witness for claim C3 on the two-block sample state. -/
theorem get_free_block_first_fit_witness :
    IsList two_blocks.mem two_blocks.head [4096, 4128] ∧ [4096, 4128].length < 3 ∧
    ∃ r, get_free_block 3 two_blocks 8 = some r ∧
      (r = NULL ↔ ∀ p ∈ [4096, 4128], fits two_blocks.mem 8 p = false) ∧
      (r ≠ NULL → ∃ pre post, [4096, 4128] = pre ++ r :: post ∧
        (∀ q ∈ pre, fits two_blocks.mem 8 q = false) ∧ fits two_blocks.mem 8 r = true) :=
  ⟨by decide, by decide, get_free_block_first_fit 3 two_blocks [4096, 4128] 8 (by decide) (by decide)⟩

/-- Claim C10: `malloc(0)`, `calloc` with a zero count or a zero element size,
`realloc` with a null handle or a zero size return `NULL`, and `free(NULL)`
returns, each leaving the whole state (memory, `head`, `tail`, break, lock) as it was. -/
theorem invalid_requests_no_effect (fuel : Nat) (s : State) (a b : Nat) :
    malloc fuel s 0 = some (s, NULL) ∧
    calloc fuel s 0 b = some (s, NULL) ∧
    calloc fuel s a 0 = some (s, NULL) ∧
    realloc fuel s NULL b = some (s, NULL) ∧
    realloc fuel s a 0 = some (s, NULL) ∧
    free fuel s NULL = some s := by
  refine ⟨?_, ?_, ?_, ?_, ?_, ?_⟩ <;> simp [malloc, calloc, realloc, free]

/-- Claim C9: with the lock not held and `n > 0`, when `get_free_block` finds no
block and `sbrk` reports failure, `malloc(n)` returns `NULL` and the state after
the call is the state before it (memory, `head`, `tail`, break, and the lock released). -/
theorem malloc_growth_failure (fuel : Nat) (s : State) (n : Nat)
    (hlock : s.global_malloc_lock.holds = 0) (hn : 0 < n)
    (hnone : get_free_block fuel s n = some NULL)
    (hbrk : s.brk ≠ SBRK_FAILED)
    (hfail : (sbrk s (toIntptr ((SIZEOF_HEADER + n) % WORD))).2 = SBRK_FAILED) :
    malloc fuel s n = some (s, NULL) := by
  have hn0 : n ≠ 0 := by omega
  have hg : get_free_block fuel { s with global_malloc_lock := { s.global_malloc_lock with holds := 1 } } n = some NULL := hnone
  have hs : sbrk { s with global_malloc_lock := { s.global_malloc_lock with holds := 1 } } (toIntptr ((SIZEOF_HEADER + n) % WORD))
      = ({ s with global_malloc_lock := { s.global_malloc_lock with holds := 1 } }, SBRK_FAILED) := by
    unfold sbrk at hfail ⊢
    simp only
    split_ifs at hfail ⊢ with h1 h2
    · exact absurd hfail hbrk
    · rfl
    · exact absurd hfail hbrk
  unfold malloc
  rw [if_neg hn0, pthread_mutex_lock_of_free s hlock]
  simp only [hg, hs]
  simp [pthread_mutex_unlock, release_after_acquire s.global_malloc_lock hlock]


/-! ## Witnesses on the sample states -/

/-- The two-block sample state satisfies the heap invariants. -/
theorem two_blocks_inv : HeapInv two_blocks [4096, 4128] :=
  ⟨by decide, by decide, by decide, by decide, by decide, by decide, by decide, by decide⟩

/-- The growth path on the two-block sample state: `malloc(16)`. -/
theorem malloc_grows_heap_witness :
    two_blocks.global_malloc_lock.holds = 0 ∧ 0 < 16 ∧ SIZEOF_HEADER + 16 < 2 ^ 63 ∧
    get_free_block 3 two_blocks 16 = some NULL ∧
    (sbrk two_blocks (toIntptr ((SIZEOF_HEADER + 16) % WORD))).2 ≠ SBRK_FAILED ∧
    ∃ s', malloc 3 two_blocks 16 = some (s', two_blocks.brk + SIZEOF_HEADER) ∧
      s'.brk = two_blocks.brk + (SIZEOF_HEADER + 16) ∧
      hdr_size s'.mem two_blocks.brk = 16 ∧ hdr_is_free s'.mem two_blocks.brk = 0 ∧
      hdr_next s'.mem two_blocks.brk = NULL ∧
      s'.tail = two_blocks.brk ∧
      (two_blocks.tail ≠ NULL → hdr_next s'.mem two_blocks.tail = two_blocks.brk) ∧
      s'.head = (if [4096, 4128] = [] then two_blocks.brk else two_blocks.head) ∧
      HeapInv s' ([4096, 4128] ++ [two_blocks.brk]) ∧
      (∀ p ∈ [4096, 4128], hdr_size s'.mem p = hdr_size two_blocks.mem p ∧
        hdr_is_free s'.mem p = hdr_is_free two_blocks.mem p) ∧
      (∀ x, x < two_blocks.brk →
        (two_blocks.tail = NULL ∨ x < two_blocks.tail + 16 ∨
          two_blocks.tail + SIZEOF_HEADER ≤ x) →
        s'.mem x = two_blocks.mem x) ∧
      s'.global_malloc_lock = two_blocks.global_malloc_lock ∧ s'.brk_min = two_blocks.brk_min ∧
      s'.brk_max = two_blocks.brk_max :=
  ⟨by decide, by decide, by decide, by decide, by decide,
    malloc_grows_heap 3 two_blocks [4096, 4128] 16 two_blocks_inv (by decide) (by decide)
      (by decide) (by decide) (by decide)⟩

/-- Witness for claim C2: `malloc(8)` on the two-block sample state reuses the block at 4096. -/
theorem malloc_reuses_first_fit_witness :
    two_blocks.global_malloc_lock.holds = 0 ∧ 0 < 8 ∧ [4096, 4128].length < 3 ∧
    (∃ p ∈ [4096, 4128], fits two_blocks.mem 8 p = true) ∧
    ∃ pre p post, [4096, 4128] = pre ++ p :: post ∧
      (∀ q ∈ pre, fits two_blocks.mem 8 q = false) ∧
      fits two_blocks.mem 8 p = true ∧
      malloc 3 two_blocks 8
        = some ({ two_blocks with mem := set_is_free two_blocks.mem p 0 }, p + SIZEOF_HEADER) ∧
      hdr_is_free (set_is_free two_blocks.mem p 0) p = 0 ∧
      (∀ q ∈ [4096, 4128],
        hdr_size (set_is_free two_blocks.mem p 0) q = hdr_size two_blocks.mem q ∧
        hdr_next (set_is_free two_blocks.mem p 0) q = hdr_next two_blocks.mem q ∧
        (q ≠ p → hdr_is_free (set_is_free two_blocks.mem p 0) q = hdr_is_free two_blocks.mem q)) ∧
      (∀ x, x < p + 8 ∨ p + 12 ≤ x → set_is_free two_blocks.mem p 0 x = two_blocks.mem x) :=
  ⟨by decide, by decide, by decide, by decide,
    malloc_reuses_first_fit 3 two_blocks [4096, 4128] 8 two_blocks_inv (by decide) (by decide)
      (by decide) (by decide)⟩

/-- Witness for claim C9: `malloc(8)` when the system allows no growth beyond 4100. -/
theorem malloc_growth_failure_witness :
    (initial 4096 4100).global_malloc_lock.holds = 0 ∧ 0 < 8 ∧
    get_free_block 1 (initial 4096 4100) 8 = some NULL ∧
    (initial 4096 4100).brk ≠ SBRK_FAILED ∧
    (sbrk (initial 4096 4100) (toIntptr ((SIZEOF_HEADER + 8) % WORD))).2 = SBRK_FAILED ∧
    malloc 1 (initial 4096 4100) 8 = some (initial 4096 4100, NULL) :=
  ⟨by decide, by decide, by decide, by decide, by decide,
    malloc_growth_failure 1 (initial 4096 4100) 8 (by decide) (by decide) (by decide)
      (by decide) (by decide)⟩

/-! ## Evaluations at concrete inputs -/

/-- Claim C1 fails on the code for sizes near the top of `size_t`: from the
initial state `malloc(2^64 - 1)` finds no block, `sbrk` succeeds, a handle is
returned, but the amount requested from `sbrk` is `(24 + 2^64 - 1) mod 2^64 = 23`
bytes, so the break moves by 23, not by `sizeof(header_t) + n`. -/
theorem malloc_growth_request_wraps :
    get_free_block 1 start (2 ^ 64 - 1) = some NULL ∧
    (sbrk start (toIntptr ((SIZEOF_HEADER + (2 ^ 64 - 1)) % WORD))).2 ≠ SBRK_FAILED ∧
    (malloc 1 start (2 ^ 64 - 1)).map (fun r => (r.1.brk, r.2))
      = some (start.brk + 23, start.brk + SIZEOF_HEADER) ∧
    start.brk + 23 ≠ start.brk + (SIZEOF_HEADER + (2 ^ 64 - 1)) := by
  decide

/-- Claim C4 fails on the code: after `a = malloc(1); b = malloc(1); c = malloc(1); free(a);`
from the initial state, the handles `b` and `c` are live, the stored size of
the block of `b` has become `2^48 + 1`, and `c` lies inside
`[b, b + stored size of b)`; the header of `c`, at `c - 24`, lies inside it as well. -/
theorem live_payloads_overlap_after_free :
    (malloc 8 start 1).bind (fun a => (malloc 8 a.1 1).bind (fun b => (malloc 8 b.1 1).bind
      (fun c => (free 8 c.1 a.2).map (fun s =>
        ([a.2, b.2, c.2, hdr_size c.1.mem (b.2 - SIZEOF_HEADER),
            hdr_size s.mem (b.2 - SIZEOF_HEADER), hdr_size s.mem (c.2 - SIZEOF_HEADER)],
          decide (b.2 ≤ c.2 - SIZEOF_HEADER ∧
            c.2 < b.2 + hdr_size s.mem (b.2 - SIZEOF_HEADER)))))))
    = some ([4120, 4145, 4170, 1, 2 ^ 48 + 1, 1], true) := by
  decide

/-- Claim C5 fails on the code.  First run: `p = malloc(8); free(p);` from the
initial state; the payload of `p` ends at the break (4128), yet the break after
`free` is still 4128 and not the initial 4096.  Second run: `p = malloc(256); p[0] = 1; free(p);`
where the size read one byte below `p` happens to be 256, so the frontier branch
runs: the break drops by `sizeof(header_t*) + 256 = 264` to 4112, not by
`sizeof(header_t) + 256 = 280` to 4096. -/
theorem free_does_not_restore_break :
    (malloc 8 start 8).bind (fun r => (free 8 r.1 r.2).map (fun s =>
      (start.brk, r.2 + hdr_size r.1.mem (r.2 - SIZEOF_HEADER), r.1.brk, s.brk)))
      = some (4096, 4128, 4128, 4128) ∧
    (malloc 8 start 256).bind (fun r => (free 8 (user_store r.1 r.2 1) r.2).map (fun s =>
      (start.brk, r.2 + hdr_size r.1.mem (r.2 - SIZEOF_HEADER), r.1.brk, s.brk)))
      = some (4096, 4376, 4376, 4112) := by
  decide

/-- Claim C6 fails on the code.  After `p = malloc(8); free(p);` from the initial
state the only block, whose payload ends at the break, is still the head and the
tail.  After `a = malloc(8); b = malloc(8); free(b);` the block of `b`, whose
payload ends at the break, is still the tail and still the `next` of the head. -/
theorem free_does_not_unlink_frontier_block :
    (malloc 8 start 8).bind (fun r => (free 8 r.1 r.2).map (fun s =>
      (r.2 + hdr_size r.1.mem (r.2 - SIZEOF_HEADER), r.1.brk, s.head, s.tail)))
      = some (4128, 4128, 4096, 4096) ∧
    (malloc 8 start 8).bind (fun a => (malloc 8 a.1 8).bind (fun b =>
      (free 8 b.1 b.2).map (fun s =>
        (b.2 + hdr_size b.1.mem (b.2 - SIZEOF_HEADER), b.1.brk, s.head, s.tail,
          hdr_next s.mem s.head))))
      = some (4160, 4160, 4096, 4128, 4128) := by
  decide

/-- Claim C7 fails on the code.  After `a = malloc(8); b = malloc(8); free(a);`
from the initial state the block of `a` (payload end 4128, break 4160) still has
`is_free = 0`, while the stored size of the block of `b` has changed from 8 to 0;
the following `malloc(8)` grows the break from 4160 to 4192 and returns the new
handle 4184 instead of reusing `a = 4120`. -/
theorem free_does_not_mark_block_free :
    (malloc 8 start 8).bind (fun a => (malloc 8 a.1 8).bind (fun b =>
      (free 8 b.1 a.2).bind (fun s => (malloc 8 s 8).map (fun c =>
        [a.2, a.2 + hdr_size b.1.mem (a.2 - SIZEOF_HEADER), b.1.brk, s.brk,
          hdr_is_free s.mem (a.2 - SIZEOF_HEADER),
          hdr_size b.1.mem (b.2 - SIZEOF_HEADER), hdr_size s.mem (b.2 - SIZEOF_HEADER),
          c.2, c.1.brk]))))
    = some [4120, 4128, 4160, 4160, 0, 8, 0, 4184, 4192] := by
  decide

/-- Claim C8 fails on the code.  For `p = malloc(8)` from the initial state the
header written by `malloc` is at `p - 24` and holds size 8, while the 8 bytes at
`p - 1`, where `free` and `realloc` look, hold 0.  `free(p)` leaves `is_free` of
the header at `p - 24` at 0 and writes its 1 to the payload byte `p + 7`.  With
a recursive mutex (so that the nested `malloc` can return) `realloc(p, 4)`
returns a new handle 4152 instead of `p`, although the stored size 8 covers 4;
with the normal mutex of the source it does not return. -/
theorem free_and_realloc_read_one_byte_below_handle :
    (malloc 8 start 8).bind (fun r => (free 8 r.1 r.2).map (fun s =>
      (r.2, hdr_size r.1.mem (r.2 - SIZEOF_HEADER), hdr_size r.1.mem (r.2 - 1),
        hdr_is_free s.mem (r.2 - SIZEOF_HEADER), s.mem (r.2 + 7))))
      = some (4120, 8, 0, 0, 1) ∧
    (malloc 8 recursive_start 8).bind (fun r => (realloc 8 r.1 r.2 4).map (fun q =>
      (r.2, hdr_size r.1.mem (r.2 - SIZEOF_HEADER), q.2)))
      = some (4120, 8, 4152) ∧
    (malloc 8 start 8).bind (fun r => (realloc 8 r.1 r.2 4).map (fun q => q.2)) = none := by
  decide

/-! ## Locking, `calloc` and `realloc` -/

theorem release_of_acquire (mu mu1 : Mutex) (h : mu.acquire = some mu1) :
    mu1.release = mu ∧ mu1.holds = mu.holds + 1 := by
  cases mu with
  | mk kind holds =>
    cases kind with
    | normal =>
      simp only [Mutex.acquire] at h
      split_ifs at h with h0
      simp only at h0
      subst h0
      cases h
      exact ⟨rfl, rfl⟩
    | recursive =>
      simp only [Mutex.acquire, Option.some.injEq] at h
      subst h
      exact ⟨rfl, rfl⟩

theorem pthread_mutex_lock_some (s s1 : State) (h : pthread_mutex_lock s = some s1) :
    ∃ mu1, s.global_malloc_lock.acquire = some mu1 ∧ s1 = { s with global_malloc_lock := mu1 } := by
  unfold pthread_mutex_lock at h
  split at h
  · rename_i mu hmu
    exact ⟨mu, hmu, by cases h; rfl⟩
  · cases h

theorem sbrk_lock (s : State) (inc : Int) :
    (sbrk s inc).1.global_malloc_lock = s.global_malloc_lock := by
  unfold sbrk
  split_ifs <;> rfl

/-- Every return of `malloc` leaves the mutex as it found it. -/
theorem malloc_lock (fuel : Nat) (s : State) (n : Nat) (r : State × Nat)
    (h : malloc fuel s n = some r) : r.1.global_malloc_lock = s.global_malloc_lock := by
  unfold malloc at h
  split_ifs at h with hn
  · cases h; rfl
  · split at h
    · cases h
    · rename_i s1 hs1
      obtain ⟨mu1, hmu, rfl⟩ := pthread_mutex_lock_some s s1 hs1
      have hrel := (release_of_acquire _ _ hmu).1
      split at h
      · cases h
      · rename_i header hg
        simp only at h
        split_ifs at h <;>
          (cases h
           simp only [pthread_mutex_unlock, sbrk_lock]
           exact hrel)

/-- Every return of `free` leaves the mutex as it found it. -/
theorem free_lock (fuel : Nat) (s : State) (b : Nat) (s' : State)
    (h : free fuel s b = some s') : s'.global_malloc_lock = s.global_malloc_lock := by
  unfold free at h
  split_ifs at h with hb
  · cases h; rfl
  · split at h
    · cases h
    · rename_i s1 hs1
      obtain ⟨mu1, hmu, rfl⟩ := pthread_mutex_lock_some s s1 hs1
      have hrel := (release_of_acquire _ _ hmu).1
      simp only at h
      split_ifs at h with h1 h2
      · simp only [Option.some.injEq] at h
        subst h
        simp only [pthread_mutex_unlock, sbrk_lock]
        exact hrel
      · split at h
        · cases h
        · rename_i s3 hs3
          split at hs3
          · cases hs3
          · rename_i curr hc
            simp only [Option.some.injEq] at hs3 h
            subst hs3
            subst h
            simp only [pthread_mutex_unlock, sbrk_lock]
            exact hrel
      · simp only [Option.some.injEq] at h
        subst h
        simp only [pthread_mutex_unlock, sbrk_lock]
        exact hrel


/-- Claim C11: for a count `num > 0` and an element size `nsize > 0`, the test
`nsize != size / num` of `calloc` on `size = num * nsize mod 2^64` is true exactly
when the product `num * nsize` is at least `2^64`; and then, with the lock not
held on entry, `calloc` returns `NULL` for every fuel (also fuel 0: no search and
no growth is run), with memory, `head`, `tail` and the break unchanged; only the
mutex differs, it is still held. -/
theorem calloc_overflow_check (fuel : Nat) (s : State) (num nsize : Nat)
    (hnum : 0 < num) (hns : 0 < nsize)
    (hlock : s.global_malloc_lock.holds = 0) :
    (nsize ≠ num * nsize % WORD / num ↔ WORD ≤ num * nsize) ∧
    (WORD ≤ num * nsize →
      calloc fuel s num nsize
        = some ({ s with global_malloc_lock := { s.global_malloc_lock with holds := 1 } }, NULL)) := by
  have hiff : nsize ≠ num * nsize % WORD / num ↔ WORD ≤ num * nsize := by
    constructor
    · intro h
      by_contra hlt
      have hlt' : num * nsize < WORD := by omega
      rw [Nat.mod_eq_of_lt hlt', Nat.mul_div_cancel_left nsize hnum] at h
      exact h rfl
    · intro hge heq
      have h1 : num * nsize % WORD < WORD := Nat.mod_lt _ (by simp [WORD])
      have h2 : num * nsize % WORD / num * num ≤ num * nsize % WORD := Nat.div_mul_le_self _ _
      rw [← heq, Nat.mul_comm] at h2
      omega
  refine ⟨hiff, fun hge => ?_⟩
  have hnum0 : num ≠ 0 := by omega
  have hns0 : nsize ≠ 0 := by omega
  unfold calloc
  rw [if_neg (by simp [hnum0, hns0]), pthread_mutex_lock_of_free s hlock]
  simp only
  rw [if_pos (hiff.mpr hge)]

/-- Self-deadlock of the nested `malloc`: with the normal mutex of the source,
not held on entry, a `calloc` call with nonzero arguments whose product does not overflow, and a
`realloc` call with a non-null handle and a nonzero size for which its size test
`header->s.size >= size` fails, hold the lock once when they call `malloc`;
`pthread_mutex_lock` blocks on that state, so neither call returns, whatever the fuel. -/
theorem nested_malloc_self_deadlock (fuel : Nat) (s : State) (num nsize block size : Nat)
    (hkind : s.global_malloc_lock.kind = MutexKind.normal)
    (hlock : s.global_malloc_lock.holds = 0)
    (hnum : 0 < num) (hns : 0 < nsize) (hprod : num * nsize < WORD)
    (hb : block ≠ NULL) (hsz : size ≠ 0) (hread : hdr_size s.mem (block - 1) < size) :
    ∃ s1, pthread_mutex_lock s = some s1 ∧ s1.global_malloc_lock.holds = 1 ∧
      pthread_mutex_lock s1 = none ∧
      calloc fuel s num nsize = none ∧ realloc fuel s block size = none := by
  have hl1 : pthread_mutex_lock { s with global_malloc_lock := { s.global_malloc_lock with holds := 1 } }
      = none := by
    simp [pthread_mutex_lock, Mutex.acquire, hkind]
  have hm : ∀ n, n ≠ 0 →
      malloc fuel { s with global_malloc_lock := { s.global_malloc_lock with holds := 1 } } n = none := by
    intro n hn
    unfold malloc
    rw [if_neg hn, hl1]
  refine ⟨_, pthread_mutex_lock_of_free s hlock, rfl, hl1, ?_, ?_⟩
  · have hnum0 : num ≠ 0 := by omega
    have hns0 : nsize ≠ 0 := by omega
    have hp0 : num * nsize % WORD ≠ 0 := by
      rw [Nat.mod_eq_of_lt hprod]
      exact Nat.mul_ne_zero hnum0 hns0
    have hchk : ¬ (nsize ≠ num * nsize % WORD / num) := by
      rw [Nat.mod_eq_of_lt hprod, Nat.mul_div_cancel_left nsize hnum]
      simp
    unfold calloc
    rw [if_neg (by simp [hnum0, hns0]), pthread_mutex_lock_of_free s hlock]
    simp only
    rw [if_neg hchk, hm _ hp0]
  · unfold realloc
    rw [if_neg (by simp [hb, hsz]), pthread_mutex_lock_of_free s hlock]
    simp only
    rw [if_neg (by omega), hm _ hsz]

/-- Witness for claim C11: `calloc(2^32, 2^32)` on the initial state, with fuel 0. -/
theorem calloc_overflow_check_witness :
    0 < 2 ^ 32 ∧ start.global_malloc_lock.holds = 0 ∧
    ((2 ^ 32 ≠ 2 ^ 32 * 2 ^ 32 % WORD / 2 ^ 32 ↔ WORD ≤ 2 ^ 32 * 2 ^ 32) ∧
      (WORD ≤ 2 ^ 32 * 2 ^ 32 →
        calloc 0 start (2 ^ 32) (2 ^ 32)
          = some ({ start with
              global_malloc_lock := { start.global_malloc_lock with holds := 1 } }, NULL))) :=
  ⟨by decide, by decide,
    calloc_overflow_check 0 start (2 ^ 32) (2 ^ 32) (by decide) (by decide) (by decide)⟩

/-- The self-deadlock on the two-block sample state: `calloc(5, 8)` and
`realloc(4152, 32)`. -/
theorem nested_malloc_self_deadlock_witness :
    two_blocks.global_malloc_lock.kind = MutexKind.normal ∧
    two_blocks.global_malloc_lock.holds = 0 ∧ 5 * 8 < WORD ∧
    hdr_size two_blocks.mem (4152 - 1) < 32 ∧
    ∃ s1, pthread_mutex_lock two_blocks = some s1 ∧ s1.global_malloc_lock.holds = 1 ∧
      pthread_mutex_lock s1 = none ∧
      calloc 8 two_blocks 5 8 = none ∧ realloc 8 two_blocks 4152 32 = none :=
  ⟨by decide, by decide, by decide, by decide,
    nested_malloc_self_deadlock 8 two_blocks 5 8 4152 32 (by decide) (by decide) (by decide)
      (by decide) (by decide) (by decide) (by decide) (by decide)⟩

/-- Claim C17 fails on the code for `realloc`: after `a = malloc(1); b = malloc(1);`
from the initial state (normal mutex) the stored size of the block of `a` is 1,
so `realloc(a, 2)` asks for more than the stored size; yet the call returns,
with result `a`: the size it reads one byte below the handle is 65536, so it
takes the branch for a block that already has the requested size and never
reaches the nested `malloc`. -/
theorem realloc_beyond_stored_size_returns :
    start.global_malloc_lock.kind = MutexKind.normal ∧
    (malloc 8 start 1).bind (fun a => (malloc 8 a.1 1).bind (fun b =>
      (realloc 8 b.1 a.2 2).map (fun q =>
        (a.2, hdr_size b.1.mem (a.2 - SIZEOF_HEADER), q.2))))
      = some (4120, 1, 4120) := by
  decide

/-- Claim C12 fails on the code: from the initial state, whose mutex is the
normal one, `calloc(5, 8)` does not return for any fuel, because the nested
`malloc` locks the mutex `calloc` already holds.  With a recursive mutex the same
call returns the handle 4120 of a block of size 40 whose 40 bytes are zero. -/
theorem calloc_blocks_on_nested_lock (fuel : Nat) :
    start.global_malloc_lock = { kind := MutexKind.normal, holds := 0 } ∧
    5 * 8 < WORD ∧ calloc fuel start 5 8 = none ∧
    (calloc 8 recursive_start 5 8).map (fun r =>
      (r.2, hdr_size r.1.mem (r.2 - SIZEOF_HEADER),
        (List.range 40).all (fun i => r.1.mem (r.2 + i) = 0)))
      = some (4120, 40, true) :=
  ⟨rfl, by decide, rfl, by decide⟩

/-- Claim C13 fails on the code: for `p = malloc(100)` from the initial state,
`realloc(p, 50)` does not return (the size read one byte below `p` is 0, so the
nested `malloc` is called and blocks on the mutex).  With a recursive mutex it
returns the new handle 4244 instead of `p = 4120`, the break has moved from 4220
to 4294, the payload byte `p[7]` has changed from 0 to 1, and the mutex is still held. -/
theorem realloc_smaller_size_does_not_return_handle :
    (malloc 8 start 100).bind (fun r => (realloc 8 r.1 r.2 50).map (fun q => q.2)) = none ∧
    (malloc 8 recursive_start 100).bind (fun r => (realloc 8 r.1 r.2 50).map (fun q =>
      [r.2, hdr_size r.1.mem (r.2 - SIZEOF_HEADER), q.2, r.1.brk, q.1.brk,
        r.1.mem (r.2 + 7), q.1.mem (r.2 + 7),
        r.1.global_malloc_lock.holds, q.1.global_malloc_lock.holds]))
      = some [4120, 100, 4244, 4220, 4294, 0, 1, 0, 1] := by
  decide

/-- Claim C14 fails on the code.  For `p = malloc(100); p[0] = 7;` from the
initial state, `realloc(p, 150)` returns `p` itself, whose block still has size
100.  For `p = malloc(100); p[20] = 85;` it does not return; with a recursive
mutex it returns the handle 4244 of a block of size 150 whose byte 20 is 0, not
85 (no byte is copied), and the old block is neither marked free nor unlinked:
the `is_free` write lands on `p[7]`. -/
theorem realloc_larger_size_keeps_block_or_loses_content :
    (malloc 8 start 100).bind (fun r =>
      (realloc 8 (user_store r.1 r.2 7) r.2 150).map (fun q =>
        (r.2, q.2, hdr_size q.1.mem (q.2 - SIZEOF_HEADER))))
      = some (4120, 4120, 100) ∧
    (malloc 8 start 100).bind (fun r =>
      (realloc 8 (user_store r.1 (r.2 + 20) 85) r.2 150).map (fun q => q.2)) = none ∧
    (malloc 8 recursive_start 100).bind (fun r =>
      (realloc 8 (user_store r.1 (r.2 + 20) 85) r.2 150).map (fun q =>
        [r.2, q.2, hdr_size q.1.mem (q.2 - SIZEOF_HEADER),
          (user_store r.1 (r.2 + 20) 85).mem (r.2 + 20), q.1.mem (q.2 + 20),
          hdr_is_free q.1.mem (r.2 - SIZEOF_HEADER), q.1.mem (r.2 + 7)]))
      = some [4120, 4244, 150, 85, 0, 0, 1] := by
  decide

/-- Claim C15 fails on the code.  In a state where, after `p = malloc(100)`, no
free block fits 150 bytes and `sbrk` refuses the growth, `realloc(p, 150)` does
not return failure: with the normal mutex of the source it does not return at
all, and after `p[0] = 7` it returns `p` itself as if the block of size 100
already had 150 bytes. -/
theorem realloc_failure_not_reported :
    (malloc 8 tight_start 100).bind (fun r =>
      (get_free_block 8 r.1 150).map (fun g =>
        (r.2, hdr_size r.1.mem (r.2 - SIZEOF_HEADER), g,
          decide ((sbrk r.1 (toIntptr ((SIZEOF_HEADER + 150) % WORD))).2 = SBRK_FAILED))))
      = some (4120, 100, NULL, true) ∧
    (malloc 8 tight_start 100).bind (fun r => (realloc 8 r.1 r.2 150).map (fun q => q.2)) = none ∧
    (malloc 8 tight_start 100).bind (fun r =>
      (realloc 8 (user_store r.1 r.2 7) r.2 150).map (fun q =>
        (q.2, hdr_size q.1.mem (r.2 - SIZEOF_HEADER))))
      = some (4120, 100) := by
  decide


/-- Claim C16 fails on the code: after
`a = malloc(1); b = malloc(1); c = malloc(65486); free(a); d = malloc(8);`
from the initial state, `free(a)` has lowered the break to 4112, inside the
header of `a`, and `malloc(8)` has put the new header there: `head` is 4096,
its `next` is 8, whose `next` is `NULL`, while `tail` is 4112.  The walk from
`head` does not reach `tail` and the addresses do not increase. -/
theorem list_broken_after_misplaced_shrink :
    (malloc 8 start 1).bind (fun a => (malloc 8 a.1 1).bind (fun b =>
      (malloc 8 b.1 65486).bind (fun c => (free 8 c.1 a.2).bind (fun s =>
        (malloc 8 s 8).map (fun d =>
          [a.2, b.2, c.2, s.brk, d.2, d.1.head, hdr_next d.1.mem d.1.head,
            hdr_next d.1.mem (hdr_next d.1.mem d.1.head), d.1.tail])))))
      = some [4120, 4145, 4170, 4112, 4136, 4096, 8, NULL, 4112] := by
  decide

/-- Claim C19 fails on the code.  For `n = 2^64 - 1` the increment passed to
`sbrk` is 23: `malloc` returns the handle 4120 while the break is 4119, with
recorded size `2^64 - 1`.  For `n = 2^64 - 32` after a first `malloc(8)` the
increment is `-8`: the call lowers the break from 4128 to 4120 and returns the
handle 4152 above it. -/
theorem malloc_increment_wraps_or_is_negative :
    toIntptr ((SIZEOF_HEADER + (2 ^ 64 - 1)) % WORD) = 23 ∧
    (malloc 8 start (2 ^ 64 - 1)).map (fun r =>
      (start.brk, r.2, r.1.brk, hdr_size r.1.mem (r.2 - SIZEOF_HEADER)))
      = some (4096, 4120, 4119, 2 ^ 64 - 1) ∧
    toIntptr ((SIZEOF_HEADER + (2 ^ 64 - 32)) % WORD) = -8 ∧
    (malloc 8 start 8).bind (fun a => (malloc 8 a.1 (2 ^ 64 - 32)).map (fun r =>
      (a.1.brk, r.2, r.1.brk, hdr_size r.1.mem (r.2 - SIZEOF_HEADER))))
      = some (4128, 4152, 4120, 2 ^ 64 - 32) := by
  decide

/-- Claim C20 fails on the code: after `a = malloc(1); b = malloc(1); c = malloc(65486);`
from the initial state the only block whose payload ends at the break (69656) is
that of `c`, the tail (4146).  `free(a)`, whose payload ends at 4121, takes the
frontier branch all the same, since the size it reads one byte below `a` is
65536: it unlinks the tail, the live block of `c`, lowers the break to 4112, and
leaves the block of `a` in the list with `is_free = 0`. -/
theorem frontier_branch_unlinks_other_block :
    (malloc 8 start 1).bind (fun a => (malloc 8 a.1 1).bind (fun b =>
      (malloc 8 b.1 65486).bind (fun c => (free 8 c.1 a.2).map (fun s =>
        [a.2, b.2, c.2,
          a.2 + hdr_size c.1.mem (a.2 - SIZEOF_HEADER),
          c.2 + hdr_size c.1.mem (c.2 - SIZEOF_HEADER), c.1.brk, c.1.tail,
          s.head, hdr_next s.mem s.head, hdr_next s.mem (hdr_next s.mem s.head), s.tail,
          s.brk, hdr_is_free s.mem (a.2 - SIZEOF_HEADER)]))))
      = some [4120, 4145, 4170, 4121, 69656, 69656, 4146,
          4096, 4121, NULL, 4121, 4112, 0] := by
  decide


/-- Claim C18 fails on the code.  The overflow return of `calloc` does leave the
lock held once more (`calloc(2^32, 2^32)` returns `NULL` with hold count 1), and
`malloc` and `free` return with the hold count they found (0).  But the other
returns named by the claim never happen with the normal mutex of the source:
`calloc(5, 8)` on a heap that has no free block and cannot grow, `realloc(p, 150)`
after `p = malloc(100)` on a heap that cannot grow, and the same `realloc` on a
heap that can, do not return for any fuel: the nested `malloc` calls
`pthread_mutex_lock` on the mutex the caller holds once, which blocks. -/
theorem nested_lock_paths_never_return (fuel : Nat) :
    (calloc 8 start (2 ^ 32) (2 ^ 32)).map (fun r => (r.2, r.1.global_malloc_lock.holds))
      = some (NULL, 1) ∧
    (malloc 8 start 8).bind (fun r => (free 8 r.1 r.2).map (fun s =>
      (r.1.global_malloc_lock.holds, s.global_malloc_lock.holds))) = some (0, 0) ∧
    (get_free_block 8 (initial 4096 4100) 40,
      (sbrk (initial 4096 4100) (toIntptr ((SIZEOF_HEADER + 40) % WORD))).2)
      = (some NULL, SBRK_FAILED) ∧
    calloc fuel (initial 4096 4100) 5 8 = none ∧
    (malloc 8 tight_start 100).bind (fun r => realloc fuel r.1 r.2 150) = none ∧
    (malloc 8 start 100).bind (fun r => realloc fuel r.1 r.2 150) = none ∧
    (pthread_mutex_lock start).map (fun s => s.global_malloc_lock.holds) = some 1 ∧
    (pthread_mutex_lock start).bind pthread_mutex_lock = none :=
  ⟨by decide, by decide, by decide, rfl, rfl, rfl, by decide, rfl⟩

end MemAlloc
